import Mathlib

/-!
Verification development for the eq2ynab converter (`src/main.rs`).

The whole pure pipeline of `main.rs` is shallowly embedded here:

* Rust `&str` values are Lean `String`s (a list of unicode chars); where the
  Rust code works with byte indices (`str::split_at`), byte positions are
  recovered through `Char.utf8Size`, and an out-of-bounds or
  non-char-boundary index is modelled as the `crash` outcome (a Rust panic).
* The Rust `f32` amount is modelled as an exact rational number `ℚ`.  The
  pipeline only parses a decimal string, multiplies by `-1`, compares with
  `0`, takes the absolute value and prints the result, and on the short
  decimal payloads this development evaluates, the `f32` round trip
  (parse, then shortest round-trip `Display`) coincides with the exact
  rational semantics modelled by `parseF32` / `formatAmount`.  IEEE special
  values (`inf`, `nan`) and rounding are outside this rational model.
* File and CLI I/O is an external collaborator: `run` consumes the raw
  input text and produces the output text that `main` would write.
-/

namespace Eq2Ynab

/-- Error enum of `main.rs` (`enum Err`); the `Write(io::Error)` variant is
the I/O boundary and is not part of the pure pipeline. -/
inductive Err where
  | InvalidNumLineElements (s : String)
  | PrefixAmount
  | ParseAmount
  | ParsePayee
  | PrefixPayee
  | ConvertDate
  deriving DecidableEq

/-- One converted row (`struct Data` of `main.rs`); the `f32` amount is
modelled as an exact rational. -/
structure Data where
  date : String
  payee : String
  amount : ℚ
  deriving DecidableEq

/-- Fuelled worker for Rust `str::split` with a non-empty separator: scans the
character list, emitting the accumulated segment whenever the separator occurs
as a prefix of the remaining input.  The fuel is only there to make the
recursion structural (each step consumes at least one character, so fuel equal
to the input length is always enough); with exhausted fuel the remaining input
is emitted as the final segment. -/
def splitSepFuel (sep : List Char) : Nat → List Char → List Char → List (List Char)
  | 0, cs, acc => [acc.reverse ++ cs]
  | _ + 1, [], acc => [acc.reverse]
  | fuel + 1, c :: cs, acc =>
    if sep ≠ [] ∧ sep.isPrefixOf (c :: cs) then
      acc.reverse :: splitSepFuel sep fuel (cs.drop (sep.length - 1)) []
    else
      splitSepFuel sep fuel cs (c :: acc)

/-- Rust `str::split` with a string pattern (used with `','`, `'\n'` and the
payee keywords; every separator in the program is non-empty). -/
def rustSplit (sep s : String) : List String :=
  (splitSepFuel sep.data s.data.length s.data []).map String.mk

/-- Strips one trailing `'\r'`, as Rust `str::lines` does on every line that
was terminated by `'\n'`. -/
def stripCR (s : String) : String :=
  match s.data.getLast? with
  | some '\r' => String.mk s.data.dropLast
  | _ => s

/-- Rust `str::lines`: split on `'\n'`, drop a final empty segment (the
trailing line ending is optional), and strip a `'\r'` from every segment that
was actually terminated by `'\n'`. -/
def rustLines (s : String) : List String :=
  let parts := rustSplit "\n" s
  match parts.getLast? with
  | some "" => parts.dropLast.map stripCR
  | _ => parts.dropLast.map stripCR ++ [parts.getLastD ""]

/-- The Unicode `White_Space` code points, the set trimmed by Rust
`str::trim` (via `char::is_whitespace`). -/
def isRustWhitespace (c : Char) : Bool :=
  decide ((0x09 ≤ c.toNat ∧ c.toNat ≤ 0x0D) ∨ c.toNat = 0x20 ∨ c.toNat = 0x85 ∨
    c.toNat = 0xA0 ∨ c.toNat = 0x1680 ∨ (0x2000 ≤ c.toNat ∧ c.toNat ≤ 0x200A) ∨
    c.toNat = 0x2028 ∨ c.toNat = 0x2029 ∨ c.toNat = 0x202F ∨ c.toNat = 0x205F ∨
    c.toNat = 0x3000)

/-- Rust `str::trim`: remove leading and trailing whitespace. -/
def rustTrim (s : String) : String :=
  String.mk (((s.data.dropWhile (isRustWhitespace ·)).reverse.dropWhile
    (isRustWhitespace ·)).reverse)

/-- Rust `char::is_ascii_whitespace`: space, tab, newline, form feed,
carriage return. -/
def isAsciiWs (c : Char) : Bool :=
  c == ' ' || c == '\t' || c == '\n' || c == '\x0C' || c == '\r'

/-- Worker for `splitAsciiWhitespace`: structural scan accumulating the
current token, emitting it at each whitespace run boundary. -/
def splitWsAux : List Char → List Char → List String
  | [], acc => if acc = [] then [] else [String.mk acc.reverse]
  | c :: cs, acc =>
    if isAsciiWs c then
      if acc = [] then splitWsAux cs []
      else String.mk acc.reverse :: splitWsAux cs []
    else
      splitWsAux cs (c :: acc)

/-- Rust `str::split_ascii_whitespace`: tokens separated by runs of ASCII
whitespace, with no empty tokens. -/
def splitAsciiWhitespace (s : String) : List String :=
  splitWsAux s.data []

/-- Rust `str::contains` with a string pattern: the needle occurs as a
contiguous run inside the haystack (for the ASCII patterns of this program,
byte-level and character-level containment coincide). -/
def isSubstring (needle : List Char) : List Char → Bool
  | [] => needle.isEmpty
  | c :: cs => needle.isPrefixOf (c :: cs) || isSubstring needle cs

/-- The keyword table of `remove_payee_prefix` in `main.rs`, in its fixed
priority order. -/
def KEYWORDS : List String := [" to ", " by ", " from "]

/-- Linear first-match scan of `remove_payee_prefix`: on the first keyword
contained in the payee, split on it, keep the last segment, trim. -/
def removePayeeAux : List String → String → Option String
  | [], payee => some payee
  | k :: ks, payee =>
    if isSubstring k.data payee.data then
      ((rustSplit k payee).getLast?).map rustTrim
    else
      removePayeeAux ks payee

/-- `remove_payee_prefix` of `main.rs` (lines 65-76). -/
def remove_payee_prefix (payee : String) : Option String :=
  removePayeeAux KEYWORDS payee

/-- The fixed ordered month table of `convert_month` in `main.rs`. -/
def MONTHS : List String :=
  ["JAN", "FEB", "MAR", "APR", "MAY", "JUN",
   "JUL", "AUG", "SEP", "OCT", "NOV", "DEC"]

/-- Rust `format!("{:0>2}", n)`: left-pad the decimal numeral to width 2
with `'0'`. -/
def pad2 (n : Nat) : String :=
  if n < 10 then "0" ++ toString n else toString n

/-- Linear first-match scan of `convert_month` (`for (idx, month) in
MONTHS.iter().enumerate()`), carrying the running index. -/
def convertMonthAux : Nat → List String → String → Option String
  | _, [], _ => none
  | idx, m :: ms, input =>
    if isSubstring m.data input.data then some (pad2 (idx + 1))
    else convertMonthAux (idx + 1) ms input

/-- `convert_month` of `main.rs` (lines 78-90): first table entry that is a
substring of the input month token, rendered as its zero-padded 1-based
index. -/
def convert_month (input_month : String) : Option String :=
  convertMonthAux 0 MONTHS input_month

/-- `convert_date` of `main.rs` (lines 92-107): split on ASCII whitespace,
require exactly 3 parts, convert the month, pass day and year through. -/
def convert_date (date : String) : Option String :=
  let split := splitAsciiWhitespace date
  if split.length ≠ 3 then none
  else
    split.head?.bind fun day =>
    split.getLast?.bind fun year =>
    split[1]?.bind fun month =>
    (convert_month month).map fun m => day ++ "/" ++ m ++ "/" ++ year

/-- Digit list to number, most significant first. -/
def digitsToNat (ds : List Char) : Nat :=
  ds.foldl (fun a c => a * 10 + (c.toNat - 48)) 0

/-- Exponent suffix of the Rust `f32::from_str` grammar: either nothing, or
`e`/`E`, an optional sign, and at least one digit reaching the end. -/
def parseExp : List Char → Option Int
  | [] => some 0
  | c :: cs =>
    if c = 'e' ∨ c = 'E' then
      match cs with
      | '+' :: ds => if ds ≠ [] ∧ ds.all Char.isDigit then some (digitsToNat ds) else none
      | '-' :: ds => if ds ≠ [] ∧ ds.all Char.isDigit then some (-(digitsToNat ds : Int)) else none
      | ds => if ds ≠ [] ∧ ds.all Char.isDigit then some (digitsToNat ds) else none
    else none

/-- Rust `str::parse::<f32>` modelled over exact rationals: optional sign,
then `Digit+ | Digit+ '.' Digit* | Digit* '.' Digit+`, then an optional
exponent.  The IEEE special spellings (`inf`, `infinity`, `nan`) and float
rounding are outside the rational model. -/
def parseF32 (s : String) : Option ℚ :=
  let p : ℚ × List Char :=
    match s.data with
    | '-' :: r => (-1, r)
    | '+' :: r => (1, r)
    | r => (1, r)
  let sgn := p.1
  let ip := p.2.takeWhile Char.isDigit
  let rest := p.2.dropWhile Char.isDigit
  match rest with
  | '.' :: rest2 =>
    let fp := rest2.takeWhile Char.isDigit
    let rest3 := rest2.dropWhile Char.isDigit
    if ip = [] ∧ fp = [] then none
    else
      (parseExp rest3).map fun e =>
        sgn * ((digitsToNat ip * 10 ^ fp.length + digitsToNat fp : ℚ) / 10 ^ fp.length) *
          (10 : ℚ) ^ e
  | _ =>
    if ip = [] then none
    else (parseExp rest).map fun e => sgn * (digitsToNat ip : ℚ) * (10 : ℚ) ^ e

/-- Byte-indexed split of a character list: `some` when the byte index `n`
lands on a character boundary at or before the end, `none` when it is out of
bounds or inside a multi-byte character (the cases where Rust
`str::split_at` panics). -/
def charBoundarySplit : List Char → Nat → Option (List Char × List Char)
  | cs, 0 => some ([], cs)
  | [], _ => none
  | c :: cs, n =>
    if c.utf8Size ≤ n then
      (charBoundarySplit cs (n - c.utf8Size)).map fun q => (c :: q.1, q.2)
    else none

/-- Rust `str::split_at`: `none` models the panic on an invalid byte index. -/
def rustSplitAt (s : String) (n : Nat) : Option (String × String) :=
  (charBoundarySplit s.data n).map fun q => (String.mk q.1, String.mk q.2)

/-- Outcome of the amount-field stage of `main` (lines 143-159): a parsed
signed value, a pipeline error, or a crash (Rust panic from `split_at`). -/
inductive AmountResult where
  | ok (v : ℚ)
  | err (e : Err)
  | crash
  deriving DecidableEq

/-- The amount-field stage of `main` (lines 143-159): classify the first
character (`-` means negative), skip the 2- or 1-byte prefix with
`split_at`, parse the payload as `f32`, and apply the sign. -/
def parseAmountField (s : String) : AmountResult :=
  match s.data.head? with
  | none => .err .PrefixAmount
  | some first =>
    let is_neg := first == '-'
    match rustSplitAt s (if is_neg then 2 else 1) with
    | none => .crash
    | some q =>
      match parseF32 q.2 with
      | none => .err .ParseAmount
      | some v => .ok (v * (if is_neg then -1 else 1))

/-- Outcome of converting one data line. -/
inductive LineResult where
  | ok (d : Data)
  | err (e : Err)
  | crash
  deriving DecidableEq

/-- The per-line closure of `main` (lines 140-176): split on `','`, require 4
fields, then amount stage, payee stage, date stage, in the order of the
source. -/
def convertLine (l : String) : LineResult :=
  let elements := rustSplit "," l
  if elements.length = 4 then
    match elements[2]? with
    | none => .err (.InvalidNumLineElements l)
    | some amountF =>
      match parseAmountField amountF with
      | .crash => .crash
      | .err e => .err e
      | .ok amount =>
        match elements[1]? with
        | none => .err .ParsePayee
        | some payeeF =>
          match remove_payee_prefix payeeF with
          | none => .err .PrefixPayee
          | some payee =>
            match elements[0]? with
            | none => .err (.InvalidNumLineElements l)
            | some dateF =>
              match convert_date dateF with
              | none => .err .ConvertDate
              | some date => .ok ⟨date, payee, amount⟩
  else .err (.InvalidNumLineElements l)

/-- Outcome of converting all data lines. -/
inductive DataResult where
  | ok (ds : List Data)
  | err (e : Err)
  | crash
  deriving DecidableEq

/-- `lines.map(...).collect::<Result<Vec<Data>, Err>>()`: first non-ok
outcome wins, later lines are not evaluated. -/
def convertAll : List String → DataResult
  | [] => .ok []
  | l :: ls =>
    match convertLine l with
    | .ok d =>
      match convertAll ls with
      | .ok ds => .ok (d :: ds)
      | .err e => .err e
      | .crash => .crash
    | .err e => .err e
    | .crash => .crash

/-- Largest `e` with `p ^ e ∣ n` (for `2 ≤ p`, `n ≠ 0`), fuelled to keep the
recursion structural; fuel `n` always suffices. -/
def powCountFuel (p : Nat) : Nat → Nat → Nat
  | 0, _ => 0
  | fuel + 1, n =>
    if 2 ≤ p ∧ n ≠ 0 ∧ n % p = 0 then powCountFuel p fuel (n / p) + 1 else 0

/-- Largest power of `p` dividing `n`. -/
def powCount (p n : Nat) : Nat := powCountFuel p n n

/-- Left-pad a numeral with zeros to width `k`. -/
def padZeros (k : Nat) (s : String) : String :=
  if s.length < k then String.mk (List.replicate (k - s.length) '0') ++ s else s

/-- Drop trailing `'0'` characters. -/
def stripZeros (s : String) : String :=
  String.mk (s.data.reverse.dropWhile (· = '0')).reverse

/-- Rust `format!("{}", x)` for the `f32` amount, over the exact rational
model: decimal expansion with no trailing fractional zeros and no decimal
point for whole values.  This is what the shortest round-trip `Display` of
`f32` prints on the short decimal payloads of this pipeline; it is defined
(by truncation) also on rationals whose denominator is not of the form
`2^a * 5^b`, which `parseF32` never produces. -/
def formatAmount (q : ℚ) : String :=
  let n := q.num.natAbs
  let k := max (powCount 2 q.den) (powCount 5 q.den)
  let scaled := n * 10 ^ k / q.den
  let sign := if q < 0 then "-" else ""
  if scaled % 10 ^ k = 0 then
    sign ++ toString (scaled / 10 ^ k)
  else
    sign ++ toString (scaled / 10 ^ k) ++ "." ++
      stripZeros (padZeros k (toString (scaled % 10 ^ k)))

/-- One emitted output row of `write` (`main.rs` lines 116-123): the
four-comma template for strictly positive amounts, the three-comma template
otherwise, then the absolute value of the amount. -/
def formatRow (d : Data) : String :=
  d.date ++ "," ++ d.payee ++ (if d.amount > 0 then ",,,," else ",,,") ++
    formatAmount |d.amount| ++ "\n"

/-- The pure part of `write` (`main.rs` lines 109-130): the fixed header
followed by one row per transaction, in order; writing the resulting text to
the file is the I/O boundary. -/
def write (data : List Data) : String :=
  data.foldl (fun out d => out ++ formatRow d)
    "Date,Payee,Catergory,Memo,Outflow,Inflow\n"

/-- Outcome of the whole run: the output text that would be written, an
error, or a crash. -/
inductive RunResult where
  | ok (out : String)
  | err (e : Err)
  | crash
  deriving DecidableEq

/-- The pure core of `main` (`main.rs` lines 132-184): drop the first line as
the header, convert every remaining line, and on success produce the output
text. -/
def run (input : String) : RunResult :=
  match convertAll ((rustLines input).drop 1) with
  | .ok ds => .ok (write ds)
  | .err e => .err e
  | .crash => .crash

/-- `true` exactly on the `ok` outcome. -/
def LineResult.isOk : LineResult → Bool
  | .ok _ => true
  | _ => false

/-- `true` exactly on the `ok` outcome. -/
def DataResult.isOk : DataResult → Bool
  | .ok _ => true
  | _ => false

/-- `true` exactly on the `ok` outcome. -/
def RunResult.isOk : RunResult → Bool
  | .ok _ => true
  | _ => false

/-- Decider for the spec's date shape `^\d{1,2}/\d{2}/\d{4}$`: exactly three
`/`-separated groups of digits, of width 1-2, 2 and 4. -/
def matchesDateShape (s : String) : Bool :=
  match rustSplit "/" s with
  | [d, m, y] =>
    (d.length = 1 || d.length = 2) && d.data.all Char.isDigit &&
      m.length = 2 && m.data.all Char.isDigit &&
      y.length = 4 && y.data.all Char.isDigit
  | _ => false

attribute [local semireducible] Rat.mul Rat.add Rat.sub Rat.inv Rat.ofScientific

set_option maxRecDepth 40000

/-- The fuelled splitter never produces an empty segment list. -/
theorem splitSepFuel_ne_nil (sep : List Char) :
    ∀ (fuel : Nat) (cs acc : List Char), splitSepFuel sep fuel cs acc ≠ [] := by
  intro fuel
  induction fuel with
  | zero => intro cs acc; simp [splitSepFuel]
  | succ n ih =>
    intro cs acc
    cases cs with
    | nil => simp [splitSepFuel]
    | cons c cs =>
      simp only [splitSepFuel]
      split
      · simp
      · exact ih cs (c :: acc)

/-- Rust `str::split` always yields at least one segment. -/
theorem rustSplit_ne_nil (sep s : String) : rustSplit sep s ≠ [] := by
  intro h
  rw [rustSplit, List.map_eq_nil_iff] at h
  exact splitSepFuel_ne_nil _ _ _ _ h

/-- On a nonempty list, `getLast?` returns the `getLastD` value. -/
theorem getLast?_eq_some_getLastD {α : Type} (l : List α) (d : α) (h : l ≠ []) :
    l.getLast? = some (l.getLastD d) := by
  cases l with
  | nil => exact absurd rfl h
  | cons a l =>
    rw [List.getLastD_eq_getLast?]
    cases hl : (a :: l).getLast? with
    | none => simp [List.getLast?_eq_none_iff] at hl
    | some x => rfl

/-- If no table entry is contained in the input, the indexed month scan
fails. -/
theorem convertMonthAux_eq_none (input : String) :
    ∀ (ms : List String) (idx : Nat),
      (∀ k ∈ ms, ¬ isSubstring k.data input.data = true) →
      convertMonthAux idx ms input = none := by
  intro ms
  induction ms with
  | nil => intro idx _; rfl
  | cons m ms ih =>
    intro idx h
    have hm := h m (List.mem_cons_self m ms)
    simp only [convertMonthAux, if_neg hm]
    exact ih (idx + 1) fun k hk => h k (List.mem_cons_of_mem _ hk)

/-- Conversely, a failing month scan means no entry is contained. -/
theorem convertMonthAux_none_mem (input : String) :
    ∀ (ms : List String) (idx : Nat), convertMonthAux idx ms input = none →
      ∀ k ∈ ms, ¬ isSubstring k.data input.data = true := by
  intro ms
  induction ms with
  | nil => intro idx _ k hk; simp at hk
  | cons m ms ih =>
    intro idx h k hk
    by_cases hm : isSubstring m.data input.data = true
    · simp only [convertMonthAux, if_pos hm] at h
      exact absurd h (by simp)
    · rcases List.mem_cons.mp hk with rfl | hk2
      · exact hm
      · simp only [convertMonthAux, if_neg hm] at h
        exact ih (idx + 1) h k hk2

/-- The first matching table entry determines the month scan's result. -/
theorem convertMonthAux_first (input : String) :
    ∀ (ms : List String) (idx i : Nat) (k : String),
      ms[i]? = some k → isSubstring k.data input.data = true →
      (∀ j kj, j < i → ms[j]? = some kj → ¬ isSubstring kj.data input.data = true) →
      convertMonthAux idx ms input = some (pad2 (idx + i + 1)) := by
  intro ms
  induction ms with
  | nil => intro idx i k hk; simp at hk
  | cons m ms ih =>
    intro idx i k hk hin hmin
    cases i with
    | zero =>
      simp only [List.getElem?_cons_zero, Option.some.injEq] at hk
      subst hk
      simp only [convertMonthAux, if_pos hin, Nat.add_zero]
    | succ i =>
      have hm := hmin 0 m (Nat.succ_pos i) (by simp)
      simp only [convertMonthAux, if_neg hm]
      have hres := ih (idx + 1) i k (by simpa using hk) hin
        (fun j kj hj hjk => hmin (j + 1) kj (by omega) (by simpa using hjk))
      rw [hres]
      have harith : idx + 1 + i + 1 = idx + (i + 1) + 1 := by omega
      rw [harith]

/-- A successful month scan returns the padded successor of an in-range
index. -/
theorem convertMonthAux_some_range (input : String) :
    ∀ (ms : List String) (idx : Nat) (s : String),
      convertMonthAux idx ms input = some s →
      ∃ i, i < ms.length ∧ s = pad2 (idx + i + 1) := by
  intro ms
  induction ms with
  | nil => intro idx s h; exact absurd h (by simp [convertMonthAux])
  | cons m ms ih =>
    intro idx s h
    by_cases hm : isSubstring m.data input.data = true
    · simp only [convertMonthAux, if_pos hm, Option.some.injEq] at h
      exact ⟨0, by simp, by rw [← h, Nat.add_zero]⟩
    · simp only [convertMonthAux, if_neg hm] at h
      obtain ⟨i, hi, hs⟩ := ih (idx + 1) s h
      exact ⟨i + 1, by simpa using hi, by rw [hs]; congr 1; omega⟩

/-- A successful `convert_month` result is a two-character digit string. -/
theorem convert_month_shape (mon m : String) (h : convert_month mon = some m) :
    m.length = 2 ∧ m.data.all Char.isDigit = true := by
  obtain ⟨i, hi, hs⟩ := convertMonthAux_some_range mon MONTHS 0 m h
  have hi12 : i < 12 := by simpa [MONTHS] using hi
  subst hs
  interval_cases i <;> exact (by decide)

/-- `convert_date` fails when the whitespace split is not 3 parts. -/
theorem convert_date_len (date : String)
    (h : (splitAsciiWhitespace date).length ≠ 3) : convert_date date = none := by
  simp [convert_date, h]

/-- `convert_date` on a 3-part split is the month conversion glued between
the untouched day and year. -/
theorem convert_date_parts (date day mon year : String)
    (h : splitAsciiWhitespace date = [day, mon, year]) :
    convert_date date = (convert_month mon).map fun m =>
      day ++ "/" ++ m ++ "/" ++ year := by
  simp [convert_date, h]

/-- C7. For every payee-field string, `remove_payee_prefix` checks the
keywords `" to "`, `" by "`, `" from "` in that fixed priority order; on the
first keyword occurring as a substring it splits on that keyword and returns
the last segment trimmed of surrounding whitespace, and if none occurs it
returns the original field unchanged, with no trimming. -/
theorem claim7_payeeNormalizer (payee : String) :
    remove_payee_prefix payee = some (
      if isSubstring " to ".data payee.data then
        rustTrim ((rustSplit " to " payee).getLastD "")
      else if isSubstring " by ".data payee.data then
        rustTrim ((rustSplit " by " payee).getLastD "")
      else if isSubstring " from ".data payee.data then
        rustTrim ((rustSplit " from " payee).getLastD "")
      else payee) := by
  simp only [ remove_payee_prefix, KEYWORDS, removePayeeAux]
  split_ifs with h1 h2 h3
  · rw [getLast?_eq_some_getLastD _ "" (rustSplit_ne_nil " to " payee)]; rfl
  · rw [getLast?_eq_some_getLastD _ "" (rustSplit_ne_nil " by " payee)]; rfl
  · rw [getLast?_eq_some_getLastD _ "" (rustSplit_ne_nil " from " payee)]; rfl
  · rfl

/-- C6. For every date-field string: if splitting on ASCII whitespace does
not yield exactly 3 parts, the Date Converter fails (the code's single
`ConvertDate`/`None` failure is what the spec calls the malformed-token
error); otherwise the month part is matched case-sensitively, in the fixed
order JAN..DEC, by substring containment against the table, the first
match's 1-based index is zero-padded to 2 digits, the result is
day / padded-month / year with day and year passed through unmodified, and
if no table abbreviation is contained in the month part the conversion
fails (the spec's unknown-month error). -/
theorem claim6_dateConverter (date : String) :
    ((splitAsciiWhitespace date).length ≠ 3 → convert_date date = none)
    ∧ (∀ day mon year, splitAsciiWhitespace date = [day, mon, year] →
        convert_date date =
          (convert_month mon).map (fun m => day ++ "/" ++ m ++ "/" ++ year)
        ∧ (convert_month mon = none ↔
            ∀ k ∈ MONTHS, ¬ isSubstring k.data mon.data = true)
        ∧ (∀ i k, MONTHS[i]? = some k → isSubstring k.data mon.data = true →
            (∀ j kj, j < i → MONTHS[j]? = some kj →
              ¬ isSubstring kj.data mon.data = true) →
            convert_month mon = some (pad2 (i + 1)))) := by
  constructor
  · exact convert_date_len date
  · intro day mon year h
    refine ⟨convert_date_parts date day mon year h, ?_, ?_⟩
    · exact ⟨fun hn => convertMonthAux_none_mem mon MONTHS 0 hn,
        fun hall => convertMonthAux_eq_none mon MONTHS 0 hall⟩
    · intro i k hk hin hmin
      have hres := convertMonthAux_first mon MONTHS 0 i k hk hin hmin
      simpa [convert_month] using hres

/-- Witness for C6 at a concrete malformed date token. -/
theorem claim6_witness : convert_date "1 2 3 4" = none :=
  (claim6_dateConverter "1 2 3 4").1 (by decide)

/-- A line whose comma split is not 4 fields yields the field-count error
carrying the line. -/
theorem convertLine_of_length_ne (l : String)
    (hl : (rustSplit "," l).length ≠ 4) :
    convertLine l = .err (.InvalidNumLineElements l) := by
  simp only [convertLine]
  rw [if_neg hl]

/-- A line result is `ok` as a Boolean exactly when it is some `ok d`. -/
theorem LineResult.isOk_iff (r : LineResult) :
    r.isOk = true ↔ ∃ d, r = .ok d := by
  cases r <;> simp [LineResult.isOk]

/-- `convertAll` succeeds exactly when every line converts. -/
theorem convertAll_isOk_iff : ∀ ls : List String,
    (convertAll ls).isOk = true ↔ ∀ l ∈ ls, (convertLine l).isOk = true := by
  intro ls
  induction ls with
  | nil => simp [convertAll, DataResult.isOk]
  | cons l ls ih =>
    simp only [convertAll]
    cases hl : convertLine l <;> cases hall : convertAll ls <;>
      simp_all [DataResult.isOk, LineResult.isOk]

/-- With all earlier lines converting, the first erring line's error is the
collected result. -/
theorem convertAll_append_err (e : Err) :
    ∀ (ls₁ : List String) (l : String) (ls₂ : List String),
      (∀ x ∈ ls₁, (convertLine x).isOk = true) → convertLine l = .err e →
      convertAll (ls₁ ++ l :: ls₂) = .err e := by
  intro ls₁
  induction ls₁ with
  | nil => intro l ls₂ _ hl; simp [convertAll, hl]
  | cons x ls₁ ih =>
    intro l ls₂ hall hl
    have hx := hall x (List.mem_cons_self x ls₁)
    obtain ⟨d, hd⟩ := (LineResult.isOk_iff _).mp hx
    have hrest := ih l ls₂ (fun y hy => hall y (List.mem_cons_of_mem _ hy)) hl
    simp [convertAll, hd, hrest]

/-- The whole run succeeds exactly when every data line converts. -/
theorem run_isOk_iff (input : String) :
    (run input).isOk = true ↔
      ∀ l ∈ (rustLines input).drop 1, (convertLine l).isOk = true := by
  rw [← convertAll_isOk_iff]
  cases h : convertAll ((rustLines input).drop 1) <;>
    simp only [run, h, RunResult.isOk, DataResult.isOk]

/-- A fully successful conversion produces the formatted output. -/
theorem run_of_convertAll_ok (input : String) (ds : List Data)
    (h : convertAll ((rustLines input).drop 1) = .ok ds) :
    run input = .ok (write ds) := by
  simp only [run, h]

/-- A failed conversion propagates its error to the whole run. -/
theorem run_of_convertAll_err (input : String) (e : Err)
    (h : convertAll ((rustLines input).drop 1) = .err e) :
    run input = .err e := by
  simp only [run, h]

/-- C8. Any data line that does not split on `','` into exactly 4 fields
converts to the invalid-field-count error carrying the offending line's
text, and a run whose data lines contain such a line never reaches the
output-producing step. -/
theorem claim8_fieldCount :
    (∀ l : String, (rustSplit "," l).length ≠ 4 →
      convertLine l = .err (.InvalidNumLineElements l))
    ∧ (∀ input : String,
        (∃ l ∈ (rustLines input).drop 1, (rustSplit "," l).length ≠ 4) →
        (run input).isOk = false) := by
  refine ⟨convertLine_of_length_ne, ?_⟩
  rintro input ⟨l, hm, hne⟩
  cases hro : (run input).isOk with
  | false => rfl
  | true =>
    have hok := (run_isOk_iff input).mp hro l hm
    rw [convertLine_of_length_ne l hne] at hok
    simp [LineResult.isOk] at hok

/-- Witness for C8 at a 3-field line. -/
theorem claim8_witness :
    convertLine "a,b,c" = .err (.InvalidNumLineElements "a,b,c")
    ∧ (run "h\na,b,c").isOk = false :=
  ⟨claim8_fieldCount.1 "a,b,c" (by decide),
   claim8_fieldCount.2 "h\na,b,c" (by decide)⟩

/-- C9. The run is atomic: output is produced exactly when every data line
converts; when the data lines are all-ok up to a first erring line, the
whole run returns exactly that line's error; and on full success the output
is the formatted rows of all converted lines, in order. -/
theorem claim9_atomicity (input : String) :
    ((run input).isOk = true ↔
      ∀ l ∈ (rustLines input).drop 1, (convertLine l).isOk = true)
    ∧ (∀ (ls₁ : List String) (l : String) (ls₂ : List String) (e : Err),
        (rustLines input).drop 1 = ls₁ ++ l :: ls₂ →
        (∀ x ∈ ls₁, (convertLine x).isOk = true) →
        convertLine l = .err e → run input = .err e)
    ∧ (∀ ds, convertAll ((rustLines input).drop 1) = .ok ds →
        run input = .ok (write ds)) := by
  refine ⟨run_isOk_iff input, ?_, run_of_convertAll_ok input⟩
  intro ls₁ l ls₂ e hsplit hall hl
  refine run_of_convertAll_err input e ?_
  rw [hsplit]
  exact convertAll_append_err e ls₁ l ls₂ hall hl

/-- Witness for C9: a good first line followed by a bad one aborts the run
with the bad line's error. -/
theorem claim9_witness :
    run "Date,Description,Amount,Balance\n31 JAN 2024,Payment to CANADA LIFE,-$271.80,$500.00\nbad"
      = .err (.InvalidNumLineElements "bad") :=
  (claim9_atomicity _).2.1
    ["31 JAN 2024,Payment to CANADA LIFE,-$271.80,$500.00"] "bad" [] _
    (by decide) (by decide) (by decide)

/-- A `String` is its character list. -/
theorem string_mk_data (s : String) : String.mk s.data = s := rfl

/-- Splitting on a character that does not occur yields one segment. -/
theorem splitSepFuel_not_mem (c0 : Char) :
    ∀ (fuel : Nat) (cs acc : List Char), cs.length ≤ fuel → c0 ∉ cs →
      splitSepFuel [c0] fuel cs acc = [acc.reverse ++ cs] := by
  intro fuel
  induction fuel with
  | zero =>
    intro cs acc hle _
    have hnil : cs = [] := List.length_eq_zero.mp (Nat.le_zero.mp hle)
    subst hnil
    simp [splitSepFuel]
  | succ n ih =>
    intro cs acc hle hmem
    cases cs with
    | nil => simp [splitSepFuel]
    | cons c cs =>
      have hne : c0 ≠ c := fun hq => hmem (hq ▸ List.mem_cons_self c cs)
      have hc : ¬ (([c0] : List Char) ≠ [] ∧ List.isPrefixOf [c0] (c :: cs) = true) := by
        rintro ⟨-, hpre⟩
        simp [List.isPrefixOf] at hpre
        exact hne hpre
      rw [splitSepFuel, if_neg hc]
      have hn : cs.length ≤ n := by
        simp only [List.length_cons] at hle; omega
      have htail := ih cs (c :: acc) hn
        (fun hq => hmem (List.mem_cons_of_mem _ hq))
      rw [htail]
      simp

/-- The fuel does not matter as long as it covers the input length. -/
theorem splitSepFuel_fuel_irrel (sep : List Char) :
    ∀ (f1 : Nat) (cs : List Char) (f2 : Nat) (acc : List Char),
      cs.length ≤ f1 → cs.length ≤ f2 →
      splitSepFuel sep f1 cs acc = splitSepFuel sep f2 cs acc := by
  intro f1
  induction f1 with
  | zero =>
    intro cs f2 acc h1 _
    have hnil : cs = [] := List.length_eq_zero.mp (Nat.le_zero.mp h1)
    subst hnil
    cases f2 <;> simp [splitSepFuel]
  | succ n ih =>
    intro cs f2 acc h1 h2
    cases cs with
    | nil => cases f2 <;> simp [splitSepFuel]
    | cons c cs =>
      cases f2 with
      | zero => simp at h2
      | succ m =>
        have hn : cs.length ≤ n := by
          simp only [List.length_cons] at h1; omega
        have hm : cs.length ≤ m := by
          simp only [List.length_cons] at h2; omega
        simp only [splitSepFuel]
        split_ifs with hp
        · have hd : (cs.drop (sep.length - 1)).length ≤ cs.length := by
            simp [List.length_drop]
          rw [ih (cs.drop (sep.length - 1)) m [] (le_trans hd hn) (le_trans hd hm)]
        · exact ih cs m (c :: acc) hn hm

/-- Splitting a list that starts with a separator-free prefix followed by
the separator emits that prefix and recurses on the remainder. -/
theorem splitSepFuel_sep_split (c0 : Char) :
    ∀ (cs₁ : List Char) (fuel : Nat) (cs₂ acc : List Char),
      (cs₁ ++ c0 :: cs₂).length ≤ fuel → c0 ∉ cs₁ →
      splitSepFuel [c0] fuel (cs₁ ++ c0 :: cs₂) acc =
        (acc.reverse ++ cs₁) :: splitSepFuel [c0] cs₂.length cs₂ [] := by
  intro cs₁
  induction cs₁ with
  | nil =>
    intro fuel cs₂ acc hle _
    cases fuel with
    | zero => simp at hle
    | succ n =>
      have hc : (([c0] : List Char) ≠ [] ∧ List.isPrefixOf [c0] (c0 :: cs₂) = true) := by
        simp [List.isPrefixOf]
      rw [List.nil_append, splitSepFuel, if_pos hc]
      have hn : cs₂.length ≤ n := by
        simp only [List.nil_append, List.length_cons] at hle; omega
      have hd0 : List.drop (([c0] : List Char).length - 1) cs₂ = cs₂ := by simp
      rw [hd0, splitSepFuel_fuel_irrel [c0] n cs₂ cs₂.length [] hn le_rfl]
      simp
  | cons c cs₁ ih =>
    intro fuel cs₂ acc hle hmem
    cases fuel with
    | zero => simp at hle
    | succ n =>
      have hne : c0 ≠ c := fun hq => hmem (hq ▸ List.mem_cons_self c cs₁)
      have hc : ¬ (([c0] : List Char) ≠ [] ∧
          List.isPrefixOf [c0] (c :: (cs₁ ++ c0 :: cs₂)) = true) := by
        rintro ⟨-, hpre⟩
        simp [List.isPrefixOf] at hpre
        exact hne hpre
      rw [List.cons_append, splitSepFuel, if_neg hc]
      have hlen : (cs₁ ++ c0 :: cs₂).length ≤ n := by
        simp only [List.cons_append, List.length_cons, List.length_append] at hle ⊢
        omega
      have hrec := ih n cs₂ (c :: acc) hlen
        (fun hq => hmem (List.mem_cons_of_mem _ hq))
      rw [hrec]
      simp

/-- Rust `split('\n')` on newline-free text is a single segment. -/
theorem rustSplit_newline_not_mem (s : String) (h : '\n' ∉ s.data) :
    rustSplit "\n" s = [s] := by
  have hd : ("\n" : String).data = ['\n'] := rfl
  unfold rustSplit
  rw [hd, splitSepFuel_not_mem '\n' s.data.length s.data [] le_rfl h]
  simp [string_mk_data]

/-- Rust `split('\n')` peels off a newline-free first line. -/
theorem rustSplit_newline_append (h rest : String) (hh : '\n' ∉ h.data) :
    rustSplit "\n" (h ++ "\n" ++ rest) = h :: rustSplit "\n" rest := by
  have hd : ("\n" : String).data = ['\n'] := rfl
  have hdata : (h ++ "\n" ++ rest).data = h.data ++ '\n' :: rest.data := by
    simp [String.data_append, hd]
  unfold rustSplit
  rw [hd, hdata, splitSepFuel_sep_split '\n' h.data
    (h.data ++ '\n' :: rest.data).length rest.data [] le_rfl hh]
  simp [string_mk_data]

/-- `rustLines` peels off a newline-terminated first line. -/
theorem rustLines_cons (h rest : String) (hh : '\n' ∉ h.data) :
    rustLines (h ++ "\n" ++ rest) = stripCR h :: rustLines rest := by
  unfold rustLines
  rw [rustSplit_newline_append h rest hh]
  rcases hr : rustSplit "\n" rest with - | ⟨x, xs⟩
  · exact absurd hr (rustSplit_ne_nil _ _)
  · simp only [List.getLast?_cons_cons, List.dropLast_cons₂, List.map_cons]
    split <;> simp

/-- Input without a newline has no data lines. -/
theorem rustLines_drop_no_newline (s : String) (h : '\n' ∉ s.data) :
    (rustLines s).drop 1 = [] := by
  unfold rustLines
  rw [rustSplit_newline_not_mem s h]
  dsimp only
  split <;> simp

/-- A run on newline-free input emits just the header. -/
theorem run_no_newline (s : String) (h : '\n' ∉ s.data) :
    run s = .ok "Date,Payee,Catergory,Memo,Outflow,Inflow\n" := by
  unfold run
  rw [rustLines_drop_no_newline s h]
  rfl

/-- C10. The first input line is dropped as the header unconditionally,
without inspecting its content (two inputs differing only in their first
line run identically, so a data row placed first is silently lost), and for
an empty input or an input consisting of a single line the run succeeds
with exactly the fixed header line followed by a newline. -/
theorem claim10_header :
    (∀ h₁ h₂ rest : String, '\n' ∉ h₁.data → '\n' ∉ h₂.data →
      run (h₁ ++ "\n" ++ rest) = run (h₂ ++ "\n" ++ rest))
    ∧ run "" = .ok "Date,Payee,Catergory,Memo,Outflow,Inflow\n"
    ∧ (∀ s : String, '\n' ∉ s.data →
        run s = .ok "Date,Payee,Catergory,Memo,Outflow,Inflow\n") := by
  refine ⟨?_, by decide, fun s hs => run_no_newline s hs⟩
  intro h₁ h₂ rest hh₁ hh₂
  unfold run
  rw [rustLines_cons h₁ rest hh₁, rustLines_cons h₂ rest hh₂]
  simp only [List.drop_succ_cons, List.drop_zero]

/-- Witness for C10: a lone data row is consumed as the header and lost. -/
theorem claim10_witness :
    run "31 JAN 2024,Payment to CANADA LIFE,-$271.80,$500.00"
      = .ok "Date,Payee,Catergory,Memo,Outflow,Inflow\n" :=
  claim10_header.2.2 "31 JAN 2024,Payment to CANADA LIFE,-$271.80,$500.00" (by decide)

/-- C1 counterexample: on the spec's end-to-end input the claimed output has
a trailing comma after `271.8` on the negative-amount row, but the code's
three-comma template places the outflow magnitude in the last emitted field
with no trailing comma, so the produced text differs from the claimed one. -/
theorem claim1_counterexample :
    run "Date,Description,Amount,Balance\n31 JAN 2024,Payment to CANADA LIFE,-$271.80,$500.00\n29 JAN 2024,Deposit from BK OF MONTREAL,$610,$1110.00\n"
      ≠ .ok "Date,Payee,Catergory,Memo,Outflow,Inflow\n31/01/2024,CANADA LIFE,,,271.8,\n29/01/2024,BK OF MONTREAL,,,,610\n" := by
  decide

/-- C1 amended: the end-to-end scenario produces exactly the header, then
`31/01/2024,CANADA LIFE,,,271.8` (no trailing comma: the outflow magnitude
is the final field of the negative row), then
`29/01/2024,BK OF MONTREAL,,,,610`. -/
theorem claim1_amended :
    run "Date,Description,Amount,Balance\n31 JAN 2024,Payment to CANADA LIFE,-$271.80,$500.00\n29 JAN 2024,Deposit from BK OF MONTREAL,$610,$1110.00\n"
      = .ok "Date,Payee,Catergory,Memo,Outflow,Inflow\n31/01/2024,CANADA LIFE,,,271.8\n29/01/2024,BK OF MONTREAL,,,,610\n" := by
  decide

/-- C4. The amount stage is not total: on the one-character field `-` the
first character is `'-'`, so the code calls `split_at(2)` on a 1-byte
string, which is out of bounds -- the model's `crash` outcome (a Rust
panic), not the error the spec requires; the crash propagates through the
line conversion and the whole run. -/
theorem claim4_crash :
    parseAmountField "-" = .crash
    ∧ convertLine "31 JAN 2024,x,-,$0" = .crash
    ∧ (run "Date,Description,Amount,Balance\n31 JAN 2024,x,-,$0").isOk = false := by
  exact ⟨by decide, by decide, by decide⟩

/-- C3 counterexample: a zero amount is emitted with the three-comma
(outflow) template, not the claimed four-comma inflow template. -/
theorem claim3_counterexample :
    ¬ (∀ d : Data, 0 ≤ d.amount →
        formatRow d = d.date ++ "," ++ d.payee ++ ",,,," ++
          formatAmount |d.amount| ++ "\n") := by
  intro hall
  have hz := hall ⟨"1/01/2024", "X", 0⟩ le_rfl
  exact absurd hz (by decide)

/-- C3 amended: the four-empty-field inflow template is used exactly for
strictly positive amounts; zero and negative amounts use the three-field
outflow template (so a zero amount lands in the Outflow column). -/
theorem claim3_amended (d : Data) :
    (0 < d.amount →
      formatRow d = d.date ++ "," ++ d.payee ++ ",,,," ++
        formatAmount |d.amount| ++ "\n")
    ∧ (d.amount ≤ 0 →
      formatRow d = d.date ++ "," ++ d.payee ++ ",,," ++
        formatAmount |d.amount| ++ "\n") := by
  constructor
  · intro hpos
    simp only [formatRow, if_pos hpos]
  · intro hneg
    simp only [formatRow, if_neg (not_lt.mpr hneg)]

/-- Witness for C3 amended at a strictly positive amount. -/
theorem claim3_amended_witness :
    formatRow ⟨"a", "b", (1 : ℚ)⟩ =
      "a" ++ "," ++ "b" ++ ",,,," ++ formatAmount |(1 : ℚ)| ++ "\n" :=
  (claim3_amended ⟨"a", "b", (1 : ℚ)⟩).1 (by norm_num)

/-- C2 counterexample: the line `31 JAN 2024,x,$-5,$0` converts successfully
to the amount `-5 < 0` although the first character of its raw amount field
is `'$'`, not `'-'` (the sign sits inside the payload). -/
theorem claim2_counterexample :
    ¬ (∀ (l : String) (d : Data), convertLine l = .ok d →
        (d.amount < 0 ↔
          ∃ f, (rustSplit "," l)[2]? = some f ∧ f.data.head? = some '-')) := by
  intro hall
  have h5 := hall "31 JAN 2024,x,$-5,$0" ⟨"31/01/2024", "x", -5⟩ (by decide)
  obtain ⟨f, hf, hhead⟩ := h5.mp (by norm_num)
  have hf2 : (rustSplit "," "31 JAN 2024,x,$-5,$0")[2]? = some "$-5" := by decide
  have hfe : "$-5" = f := Option.some.inj (hf2.symm.trans hf)
  subst hfe
  exact absurd hhead (by decide)

/-- C2 amended: for a successfully parsed amount field, the amount is
negative iff the effective sign of the product is negative: either the
first character is `'-'` and the parsed payload is strictly positive, or
the first character is not `'-'` and the payload itself parses negative (a
sign inside the payload); in particular a zero payload never yields a
negative amount. -/
theorem claim2_amended (s pre payload : String) (v q : ℚ)
    (hok : parseAmountField s = .ok v)
    (hsplit : rustSplitAt s (if s.data.head? = some '-' then 2 else 1)
      = some (pre, payload))
    (hq : parseF32 payload = some q) :
    v < 0 ↔ ((s.data.head? = some '-' ∧ 0 < q)
      ∨ (s.data.head? ≠ some '-' ∧ q < 0)) := by
  unfold parseAmountField at hok
  cases hhead : s.data.head? with
  | none =>
    rw [hhead] at hok
    exact absurd hok (by simp)
  | some first =>
    rw [hhead] at hok
    by_cases hneg : first = '-'
    · subst hneg
      rw [hhead, if_pos rfl] at hsplit
      simp only [beq_self_eq_true, if_true, hsplit, hq] at hok
      have hv : q * -1 = v := by
        simpa using hok
      simp only [ne_eq, not_true_eq_false, false_and, or_false, true_and]
      rw [← hv, mul_neg_one]
      exact neg_lt_zero
    · have hcond : ¬ (s.data.head? = some '-') := by
        rw [hhead]
        simpa using hneg
      rw [if_neg hcond] at hsplit
      have hb : (first == '-') = false := beq_eq_false_iff_ne.mpr hneg
      simp only [hb, Bool.false_eq_true, if_neg, ite_false, hsplit, hq] at hok
      have hv : q * 1 = v := by
        simpa using hok
      simp only [Option.some.injEq, hneg, false_and, false_or, ne_eq,
        not_false_eq_true, true_and]
      rw [← hv, mul_one]

/-- Witness for C2 amended at the concrete field `-$271.80`. -/
theorem claim2_amended_witness :
    ((-(1359 / 5) : ℚ) < 0 ↔
      (("-$271.80".data.head? = some '-' ∧ (0 : ℚ) < 1359 / 5)
        ∨ ("-$271.80".data.head? ≠ some '-' ∧ (1359 / 5 : ℚ) < 0))) :=
  claim2_amended "-$271.80" "-$" "271.80" (-(1359 / 5)) (1359 / 5)
    (by decide) (by decide) (by decide)

/-- C5 counterexample: the 4-field line `a,b,c,d` fails the conversion at
the amount stage (its payload after the skipped prefix is empty), so
conversion of 4-field lines is not failure-free. -/
theorem claim5_counterexample :
    ¬ (∀ l : String, (rustSplit "," l).length = 4 →
        ∃ d, convertLine l = .ok d ∧ matchesDateShape d.date = true) := by
  intro hall
  obtain ⟨d, hd, -⟩ := hall "a,b,c,d" (by decide)
  have herr : convertLine "a,b,c,d" = .err .ParseAmount := by decide
  rw [herr] at hd
  exact absurd hd (by simp)

/-- A successfully converted line's date comes from `convert_date` on the
first field. -/
theorem convertLine_ok_date (l : String) (d : Data) (f0 f1 f2 f3 : String)
    (hsplit : rustSplit "," l = [f0, f1, f2, f3])
    (hok : convertLine l = .ok d) :
    convert_date f0 = some d.date := by
  simp only [convertLine, hsplit, List.length_cons, List.length_nil] at hok
  norm_num at hok
  cases hA : parseAmountField f2 with
  | err e => simp [hA] at hok
  | crash => simp [hA] at hok
  | ok v =>
    simp only [hA] at hok
    cases hP : remove_payee_prefix f1 with
    | none => simp [hP] at hok
    | some p =>
      simp only [hP] at hok
      cases hD : convert_date f0 with
      | none => simp [hD] at hok
      | some dt =>
        simp only [hD] at hok
        obtain rfl := LineResult.ok.inj hok
        rfl

/-- Inversion of a successful date conversion. -/
theorem convert_date_some_inv (dateF out : String)
    (h : convert_date dateF = some out) :
    ∃ day mon year m, splitAsciiWhitespace dateF = [day, mon, year]
      ∧ convert_month mon = some m
      ∧ out = day ++ "/" ++ m ++ "/" ++ year := by
  by_cases hlen : (splitAsciiWhitespace dateF).length = 3
  · obtain ⟨day, mon, year, hsp⟩ := List.length_eq_three.mp hlen
    rw [convert_date_parts dateF day mon year hsp] at h
    cases hm : convert_month mon with
    | none =>
      rw [hm] at h
      exact absurd h (by simp)
    | some m =>
      rw [hm] at h
      simp only [Option.map_some', Option.some.injEq] at h
      exact ⟨day, mon, year, m, hsp, hm, h.symm⟩
  · rw [convert_date_len dateF hlen] at h
    exact absurd h (by simp)

/-- C5 amended: a 4-field line may still fail (amount or date stage), but
whenever it converts successfully the date is the verbatim day token, a
slash, a two-digit month numeral, a slash, and the verbatim year token --
so the spec's regex holds exactly when the day and year tokens happen to be
1-2 and 4 digits. -/
theorem claim5_amended (l : String) (d : Data) (f0 f1 f2 f3 : String)
    (hsplit : rustSplit "," l = [f0, f1, f2, f3])
    (hok : convertLine l = .ok d) :
    ∃ day mon year m, splitAsciiWhitespace f0 = [day, mon, year]
      ∧ convert_month mon = some m
      ∧ m.length = 2 ∧ m.data.all Char.isDigit = true
      ∧ d.date = day ++ "/" ++ m ++ "/" ++ year := by
  have hdate := convertLine_ok_date l d f0 f1 f2 f3 hsplit hok
  obtain ⟨day, mon, year, m, hsp, hm, hout⟩ :=
    convert_date_some_inv f0 d.date hdate
  obtain ⟨hl2, hdig⟩ := convert_month_shape mon m hm
  exact ⟨day, mon, year, m, hsp, hm, hl2, hdig, hout⟩

/-- Witness for C5 amended on the line `1 JAN 1999,x,$5,$0`. -/
theorem claim5_amended_witness :
    ∃ day mon year m, splitAsciiWhitespace "1 JAN 1999" = [day, mon, year]
      ∧ convert_month mon = some m
      ∧ m.length = 2 ∧ m.data.all Char.isDigit = true
      ∧ (Data.mk "1/01/1999" "x" 5).date = day ++ "/" ++ m ++ "/" ++ year :=
  claim5_amended "1 JAN 1999,x,$5,$0" ⟨"1/01/1999", "x", 5⟩
    "1 JAN 1999" "x" "$5" "$0" (by decide) (by decide)

end Eq2Ynab
